import Mathlib

/-!
Shallow embedding of the trajectory-planning and shot-selection core of the
bubble-shooter bot (`bot/aiming/aiming_system.py`, with the data model from
`bot/detection/game_detector.py`).  Python floats are modelled as real
numbers; Python `int(x)` (truncation toward zero) is modelled by `pytrunc`;
the `while` loop of the trajectory simulator is modelled by a fuel-indexed
recursion (the fuel is shown sufficient by the termination theorem below).
-/

namespace Lingongrova

/-- Bubble dataclass from `game_detector.py`: integer center, radius,
remaining hit count and an RGB color tag.  Dataclass equality compares all
fields by value. -/
structure Bubble where
  x : ℤ
  y : ℤ
  radius : ℤ
  hit_count : ℤ
  color : ℤ × ℤ × ℤ
deriving DecidableEq, Repr

/-- GameState dataclass from `game_detector.py`: the snapshot consumed by
one planning call.  The field `game_area` is `(x, y, width, height)`. -/
structure GameState where
  bubbles : List Bubble
  shooter_position : ℤ × ℤ
  bullets : List (ℤ × ℤ)
  game_area : ℤ × ℤ × ℤ × ℤ
deriving DecidableEq

/-- Physical and policy constants from `AimingSystem.__init__`. -/
def gravity : ℝ := 9.81

/-- Initial bullet speed (pixels/second). -/
def bullet_speed : ℝ := 500

/-- Energy loss factor on wall bounces. -/
def bounce_damping : ℝ := 0.8

/-- Maximum number of wall bounces considered by the simulator. -/
def max_bounces : ℕ := 3

/-- Fixed simulation time step (60 FPS). -/
def sim_dt : ℝ := 0.016

/-- Python `int(x)` on a float: truncation toward zero. -/
noncomputable def pytrunc (x : ℝ) : ℤ :=
  if 0 ≤ x then ⌊x⌋ else -⌊-x⌋

/-- Embedding of `math.atan2 y x`: the angle of the point `(x, y)`, by the
standard piecewise characterisation in terms of `arctan`. -/
noncomputable def atan2 (y x : ℝ) : ℝ :=
  if 0 < x then Real.arctan (y / x)
  else if x < 0 ∧ 0 ≤ y then Real.arctan (y / x) + Real.pi
  else if x < 0 ∧ y < 0 then Real.arctan (y / x) - Real.pi
  else if x = 0 ∧ 0 < y then Real.pi / 2
  else if x = 0 ∧ y < 0 then -(Real.pi / 2)
  else 0

/-- The sort key comparison used by `calculate_best_shot`:
Python `sorted(bubbles, key=lambda b: (b.hit_count, -b.y))`, i.e. the
lexicographic order on the key tuple `(hit_count, -y)`. -/
def bubble_key_le (a b : Bubble) : Bool :=
  decide (a.hit_count < b.hit_count ∨ (a.hit_count = b.hit_count ∧ -a.y ≤ -b.y))

/-- Embedding of `sorted(game_state.bubbles, key=lambda b: (b.hit_count, -b.y))`:
Python's stable sort by the key tuple, modelled by the (stable) merge sort. -/
def sort_bubbles (bubbles : List Bubble) : List Bubble :=
  bubbles.mergeSort bubble_key_le

/-- Embedding of `AimingSystem._calculate_direct_shot`. -/
noncomputable def _calculate_direct_shot (shooter_pos : ℤ × ℤ) (target : Bubble) :
    Option ℝ :=
  let dx : ℤ := target.x - shooter_pos.1
  let dy : ℤ := target.y - shooter_pos.2
  if dy ≥ 0 then none
  else
    let angle := atan2 (dx : ℝ) (-(dy : ℝ))
    if |angle| > Real.pi / 2 then none
    else some angle

/-- The mutable state of the `while` loop of
`AimingSystem._simulate_trajectory`: position, velocity, bounce counter and
the list of recorded integer sample points. -/
structure SimState where
  x : ℝ
  y : ℝ
  vx : ℝ
  vy : ℝ
  bounces : ℕ
  traj : List (ℤ × ℤ)

/-- One iteration of the simulator's `while` loop: evaluate the loop
condition and, when it holds, run one loop body.  `Sum.inl st` means the
loop is over with final state `st` (condition false, fall below the floor,
target proximity early exit, or the `len(trajectory) > 1000` hard cap);
`Sum.inr st` means the loop continues with state `st`. -/
noncomputable def sim_step (x_min y_min x_max y_max : ℤ) (target : Bubble)
    (st : SimState) : SimState ⊕ SimState :=
  if st.bounces ≤ max_bounces ∧ st.y > (y_min : ℝ) then
    let x1 := st.x + st.vx * sim_dt
    let y1 := st.y + st.vy * sim_dt
    let vy1 := st.vy + gravity * sim_dt
    let wall := x1 ≤ (x_min : ℝ) ∨ x1 ≥ (x_max : ℝ)
    let vx1 := if wall then -st.vx * bounce_damping else st.vx
    let x2 := if wall then max (x_min : ℝ) (min (x_max : ℝ) x1) else x1
    let bounces1 := if wall then st.bounces + 1 else st.bounces
    if y1 ≥ (y_max : ℝ) then
      Sum.inl ⟨x2, y1, vx1, vy1, bounces1, st.traj⟩
    else
      let traj1 := st.traj ++ [(pytrunc x2, pytrunc y1)]
      if |x2 - (target.x : ℝ)| < (target.radius : ℝ) ∧
          |y1 - (target.y : ℝ)| < (target.radius : ℝ) then
        Sum.inl ⟨x2, y1, vx1, vy1, bounces1, traj1⟩
      else if traj1.length > 1000 then
        Sum.inl ⟨x2, y1, vx1, vy1, bounces1, traj1⟩
      else
        Sum.inr ⟨x2, y1, vx1, vy1, bounces1, traj1⟩
  else Sum.inl st

/-- Fuel-indexed embedding of the simulator's `while` loop: iterate
`sim_step` until the loop reports termination; `fuel = 0` returns the state
unchanged (the termination theorem below shows the fuel used is never
exhausted). -/
noncomputable def sim_loop (x_min y_min x_max y_max : ℤ) (target : Bubble) :
    ℕ → SimState → SimState
  | 0, st => st
  | fuel + 1, st =>
    match sim_step x_min y_min x_max y_max target st with
    | Sum.inl done => done
    | Sum.inr st1 => sim_loop x_min y_min x_max y_max target fuel st1

/-- Initial loop state of `_simulate_trajectory`: position at the start
point, velocity components from the launch angle, no bounces, and the start
point already recorded. -/
noncomputable def sim_init (start_pos : ℤ × ℤ) (angle : ℝ) : SimState :=
  ⟨(start_pos.1 : ℝ), (start_pos.2 : ℝ),
    bullet_speed * Real.sin angle, -bullet_speed * Real.cos angle,
    0, [(start_pos.1, start_pos.2)]⟩

/-- Embedding of `AimingSystem._simulate_trajectory` run with explicit fuel: the final
loop state, then `return trajectory if len(trajectory) > 1 else None`. -/
noncomputable def simulate_trajectory_fuel (fuel : ℕ) (start_pos : ℤ × ℤ) (angle : ℝ)
    (game_area : ℤ × ℤ × ℤ × ℤ) (target : Bubble) : Option (List (ℤ × ℤ)) :=
  let x_min := game_area.1
  let y_min := game_area.2.1
  let x_max := game_area.1 + game_area.2.2.1
  let y_max := game_area.2.1 + game_area.2.2.2
  let stF := sim_loop x_min y_min x_max y_max target fuel (sim_init start_pos angle)
  if stF.traj.length > 1 then some stF.traj else none

/-- Embedding of `AimingSystem._simulate_trajectory`.  Fuel `1001` is enough: each loop
body appends one point and the loop stops once more than `1000` points are
recorded (see the termination theorem). -/
noncomputable def _simulate_trajectory (start_pos : ℤ × ℤ) (angle : ℝ)
    (game_area : ℤ × ℤ × ℤ × ℤ) (target : Bubble) : Option (List (ℤ × ℤ)) :=
  simulate_trajectory_fuel 1001 start_pos angle game_area target

/-- Embedding of `AimingSystem._trajectory_hits_target`. -/
noncomputable def _trajectory_hits_target (trajectory : List (ℤ × ℤ)) (target : Bubble) :
    Bool :=
  trajectory.any fun p =>
    decide (Real.sqrt (((p.1 : ℝ) - target.x) ^ 2 + ((p.2 : ℝ) - target.y) ^ 2)
      ≤ (target.radius : ℝ))

/-- The swept candidate angles of `_calculate_bounced_shots`:
`range(-80, 81, 5)` in degrees. -/
def sweep_degrees : List ℤ :=
  (List.range 33).map fun i => -80 + 5 * (i : ℤ)

/-- Degrees to radians (`math.radians`). -/
noncomputable def radians (d : ℤ) : ℝ := (d : ℝ) * Real.pi / 180

/-- Embedding of `AimingSystem._calculate_bounced_shots`: sweep the discretized angles,
keep each angle whose simulated trajectory exists and passes within the
target's radius, paired with the trajectory length. -/
noncomputable def _calculate_bounced_shots (game_state : GameState) (target : Bubble) :
    List (ℝ × ℕ) :=
  sweep_degrees.filterMap fun d =>
    let angle := radians d
    match _simulate_trajectory game_state.shooter_position angle
        game_state.game_area target with
    | some trajectory =>
      if _trajectory_hits_target trajectory target then some (angle, trajectory.length)
      else none
    | none => none

/-- Embedding of `max(bubble.y for bubble in all_bubbles)` guarded by
`if all_bubbles else target.y` (the Python code's fallback). -/
def max_y_of (target : Bubble) (all_bubbles : List Bubble) : ℤ :=
  match all_bubbles.map Bubble.y with
  | [] => target.y
  | h :: t => t.foldl max h

/-- The `height_factor` computed inside `AimingSystem._evaluate_shot`
(lines 169-171): `(max_y - target.y) / max_y if max_y > 0 else 0`. -/
noncomputable def height_factor (target : Bubble) (all_bubbles : List Bubble) : ℝ :=
  let my := max_y_of target all_bubbles
  if (0 : ℤ) < my then ((my : ℝ) - (target.y : ℝ)) / (my : ℝ) else 0

/-- Embedding of `AimingSystem._calculate_chain_potential`: count the bubbles distinct
from the target (by value) whose center distance to the target is below
`1.5` times the sum of the radii. -/
noncomputable def _calculate_chain_potential (target : Bubble) (all_bubbles : List Bubble) :
    ℕ :=
  all_bubbles.foldl
    (fun chain_count bubble =>
      if bubble ≠ target then
        if Real.sqrt (((bubble.x : ℝ) - target.x) ^ 2 + ((bubble.y : ℝ) - target.y) ^ 2)
            < ((target.radius : ℝ) + (bubble.radius : ℝ)) * 1.5 then
          chain_count + 1
        else chain_count
      else chain_count)
    0

/-- Embedding of `AimingSystem._evaluate_shot`: toughness term, height term, direct-shot
bonus and chain-potential term. -/
noncomputable def _evaluate_shot (target : Bubble) (all_bubbles : List Bubble)
    (direct : Bool) : ℝ :=
  let score1 : ℝ := 0 + ((10 - target.hit_count : ℤ) : ℝ) * 10
  let score2 : ℝ := score1 + height_factor target all_bubbles * 20
  let score3 : ℝ := if direct then score2 + 15 else score2
  score3 + (_calculate_chain_potential target all_bubbles : ℝ) * 5

/-- The body of the `for angle, _ in bounced_shots` loop of
`calculate_best_shot`: a running `(best_shot, best_score)` accumulator
updated whenever the bounced score strictly improves. -/
noncomputable def bounced_fold (target : Bubble) (bubbles : List Bubble)
    (acc : Option (ℝ × Bubble) × ℝ) (shots : List (ℝ × ℕ)) :
    Option (ℝ × Bubble) × ℝ :=
  shots.foldl
    (fun acc' s =>
      let score := _evaluate_shot target bubbles false
      if score > acc'.2 then (some (s.1, target), score) else acc')
    acc

/-- The body of the `for bubble in sorted_bubbles` loop of
`calculate_best_shot`: try the direct shot, then every bounced shot. -/
noncomputable def shot_step (game_state : GameState)
    (acc : Option (ℝ × Bubble) × ℝ) (bubble : Bubble) :
    Option (ℝ × Bubble) × ℝ :=
  let acc1 :=
    match _calculate_direct_shot game_state.shooter_position bubble with
    | some angle =>
      let score := _evaluate_shot bubble game_state.bubbles true
      if score > acc.2 then (some (angle, bubble), score) else acc
    | none => acc
  bounced_fold bubble game_state.bubbles acc1
    (_calculate_bounced_shots game_state bubble)

/-- Embedding of `AimingSystem.calculate_best_shot`: `None` on an empty bubble list,
otherwise the best `(angle, bubble)` found over the prioritized bubbles,
starting from `best_shot = None`, `best_score = -1`. -/
noncomputable def calculate_best_shot (game_state : GameState) :
    Option (ℝ × Bubble) :=
  if game_state.bubbles = [] then none
  else
    ((sort_bubbles game_state.bubbles).foldl (shot_step game_state) (none, -1)).1

/-- Smallest y-coordinate over the bubble list (same guard shape as
`max_y_of`); used only to state what claim C7 describes. -/
def min_y_of (target : Bubble) (all_bubbles : List Bubble) : ℤ :=
  match all_bubbles.map Bubble.y with
  | [] => target.y
  | h :: t => t.foldl min h

/-- Modelled from the claim's words (claim C7): the target's vertical
position normalized against the tallest (smallest-y) bubble on the board,
equal to 0 when the target is the lowest bubble present and to 1 when the
target is at the tallest bubble. -/
noncomputable def height_factor_claimed (target : Bubble) (all_bubbles : List Bubble) :
    ℝ :=
  let low := max_y_of target all_bubbles
  let tall := min_y_of target all_bubbles
  if tall < low then
    ((low : ℝ) - (target.y : ℝ)) / ((low : ℝ) - (tall : ℝ))
  else 0

/-- The neighbour condition of `_calculate_chain_potential`: center-to-center
Euclidean distance strictly below 1.5 times the sum of the radii. -/
noncomputable def chain_close (t b : Bubble) : Prop :=
  Real.sqrt (((b.x : ℝ) - t.x) ^ 2 + ((b.y : ℝ) - t.y) ^ 2)
    < ((t.radius : ℝ) + (b.radius : ℝ)) * 1.5

/-- Integer arithmetic equivalent of `chain_close` (squared form), used to
evaluate the chain potential on concrete inputs. -/
def chain_close_int (t b : Bubble) : Prop :=
  0 < t.radius + b.radius ∧
    4 * ((b.x - t.x) ^ 2 + (b.y - t.y) ^ 2) < 9 * (t.radius + b.radius) ^ 2

/-! ### Arithmetic helper lemmas -/

lemma pytrunc_of_nonneg {x : ℝ} (h : 0 ≤ x) : pytrunc x = ⌊x⌋ := if_pos h

lemma pytrunc_of_neg {x : ℝ} (h : x < 0) : pytrunc x = ⌈x⌉ := by
  rw [pytrunc, if_neg (not_le.mpr h), Int.floor_neg, neg_neg]

lemma pytrunc_le {x : ℝ} {b : ℤ} (h : x ≤ (b : ℝ)) : pytrunc x ≤ b := by
  rcases le_or_lt 0 x with hx | hx
  · rw [pytrunc_of_nonneg hx]
    exact_mod_cast le_trans (Int.floor_le x) h
  · rw [pytrunc_of_neg hx]
    calc ⌈x⌉ ≤ ⌈(b : ℝ)⌉ := Int.ceil_le_ceil h
    _ = b := Int.ceil_intCast b

lemma le_pytrunc {a : ℤ} {x : ℝ} (h : (a : ℝ) ≤ x) : a ≤ pytrunc x := by
  rcases le_or_lt 0 x with hx | hx
  · rw [pytrunc_of_nonneg hx]
    exact Int.le_floor.mpr h
  · rw [pytrunc_of_neg hx]
    calc a = ⌈(a : ℝ)⌉ := (Int.ceil_intCast a).symm
    _ ≤ ⌈x⌉ := Int.ceil_le_ceil h

lemma pytrunc_lt {x : ℝ} {b : ℤ} (h : x < (b : ℝ)) (hb : 1 ≤ b) : pytrunc x < b := by
  rcases le_or_lt 0 x with hx | hx
  · rw [pytrunc_of_nonneg hx]
    exact Int.floor_lt.mpr h
  · rw [pytrunc_of_neg hx]
    have : ⌈x⌉ ≤ 0 := Int.ceil_le.mpr (by exact_mod_cast hx.le)
    omega

lemma pytrunc_intCast (n : ℤ) : pytrunc (n : ℝ) = n := by
  rcases le_or_lt 0 (n : ℝ) with hx | hx
  · rw [pytrunc_of_nonneg hx, Int.floor_intCast]
  · rw [pytrunc_of_neg hx, Int.ceil_intCast]

lemma atan2_pos_x (y x : ℝ) (hx : 0 < x) : atan2 y x = Real.arctan (y / x) :=
  if_pos hx

lemma abs_atan2_pos_x_lt (y x : ℝ) (hx : 0 < x) : |atan2 y x| < Real.pi / 2 := by
  rw [atan2_pos_x y x hx, abs_lt]
  exact ⟨Real.neg_pi_div_two_lt_arctan _, Real.arctan_lt_pi_div_two _⟩

/-! ### Direct shot characterisation -/

lemma direct_shot_of_above (s : ℤ × ℤ) (t : Bubble) (h : t.y < s.2) :
    _calculate_direct_shot s t =
      some (atan2 ((t.x : ℝ) - (s.1 : ℝ)) (-((t.y : ℝ) - (s.2 : ℝ)))) := by
  have hdy : ¬ ((t.y - s.2 : ℤ) ≥ 0) := by omega
  have hpos : (0 : ℝ) < -(((t.y - s.2 : ℤ) : ℝ)) := by
    have : ((t.y - s.2 : ℤ) : ℝ) < 0 := by exact_mod_cast Int.sub_neg_of_lt h
    linarith
  have habs : ¬ (|atan2 (((t.x - s.1 : ℤ)) : ℝ) (-(((t.y - s.2 : ℤ)) : ℝ))| >
      Real.pi / 2) :=
    not_lt.mpr (le_of_lt (abs_atan2_pos_x_lt _ _ hpos))
  simp only [_calculate_direct_shot, hdy, if_false, if_neg habs]
  congr 1 <;> push_cast <;> ring

lemma direct_shot_of_not_above (s : ℤ × ℤ) (t : Bubble) (h : s.2 ≤ t.y) :
    _calculate_direct_shot s t = none := by
  have hdy : ((t.y - s.2 : ℤ) ≥ 0) := by omega
  simp only [_calculate_direct_shot, hdy, if_true]

/-- Claim C1 (the failing input): the prioritizer on two bubbles with equal
hit count puts the bubble with the larger y-coordinate (lower on screen)
first, while the claim - and the code's own comment about highest position
first - demands the smaller-y bubble first. -/
theorem C1_sort_puts_larger_y_first :
    sort_bubbles [⟨100, 100, 20, 1, (0, 0, 0)⟩, ⟨100, 200, 20, 1, (0, 0, 0)⟩] =
      [⟨100, 200, 20, 1, (0, 0, 0)⟩, ⟨100, 100, 20, 1, (0, 0, 0)⟩] := by
  rw [sort_bubbles, List.mergeSort]
  simp [List.splitInTwo, List.splitAt, List.splitAt.go, List.merge, bubble_key_le]

/-- Claim C8: the direct-shot computation returns an angle exactly when the
target lies strictly above the shooter and the arctangent of the horizontal
displacement over the negated vertical displacement has magnitude at most
pi/2 (the magnitude condition is automatic); the returned angle equals that
arctangent and lies in [-pi/2, pi/2]; and for a target at the shooter's x
directly above - shooter (400,500), target (400,100) - the angle is 0. -/
theorem C8_direct_shot_characterisation :
    (∀ (s : ℤ × ℤ) (t : Bubble),
      (∃ a, _calculate_direct_shot s t = some a) ↔
        (t.y < s.2 ∧
          |atan2 ((t.x : ℝ) - (s.1 : ℝ)) (-((t.y : ℝ) - (s.2 : ℝ)))| ≤ Real.pi / 2)) ∧
    (∀ (s : ℤ × ℤ) (t : Bubble) (a : ℝ),
      _calculate_direct_shot s t = some a →
        a = atan2 ((t.x : ℝ) - (s.1 : ℝ)) (-((t.y : ℝ) - (s.2 : ℝ))) ∧
        -(Real.pi / 2) ≤ a ∧ a ≤ Real.pi / 2) ∧
    (∀ (r hc : ℤ) (col : ℤ × ℤ × ℤ),
      _calculate_direct_shot (400, 500) ⟨400, 100, r, hc, col⟩ = some 0) := by
  have key : ∀ (s : ℤ × ℤ) (t : Bubble), t.y < s.2 →
      |atan2 ((t.x : ℝ) - (s.1 : ℝ)) (-((t.y : ℝ) - (s.2 : ℝ)))| < Real.pi / 2 := by
    intro s t h
    apply abs_atan2_pos_x_lt
    have : ((t.y : ℝ)) < (s.2 : ℝ) := by exact_mod_cast h
    linarith
  refine ⟨?_, ?_, ?_⟩
  · intro s t
    constructor
    · rintro ⟨a, ha⟩
      rcases lt_or_le t.y s.2 with h | h
      · exact ⟨h, le_of_lt (key s t h)⟩
      · rw [direct_shot_of_not_above s t h] at ha
        exact absurd ha (by simp)
    · rintro ⟨h, -⟩
      exact ⟨_, direct_shot_of_above s t h⟩
  · intro s t a ha
    rcases lt_or_le t.y s.2 with h | h
    · rw [direct_shot_of_above s t h] at ha
      have := Option.some_injective _ ha
      refine ⟨this.symm, ?_, ?_⟩
      · have h2 := (abs_lt.mp (key s t h)).1
        rw [this] at h2
        linarith
      · have h2 := (abs_lt.mp (key s t h)).2
        rw [this] at h2
        linarith
    · rw [direct_shot_of_not_above s t h] at ha
      exact absurd ha (by simp)
  · intro r hc col
    rw [direct_shot_of_above (400, 500) ⟨400, 100, r, hc, col⟩ (by norm_num)]
    norm_num
    rw [atan2_pos_x 0 400 (by norm_num)]
    norm_num

/-- Witness for claim C8 at shooter (400,500), target (400,100): the angle 0
returned there equals the characterising arctangent and lies in the legal
range. -/
theorem C8_direct_shot_characterisation_witness :
    (0 : ℝ) = atan2 ((400 : ℝ) - (400 : ℝ)) (-((100 : ℝ) - (500 : ℝ))) ∧
      -(Real.pi / 2) ≤ (0 : ℝ) ∧ (0 : ℝ) ≤ Real.pi / 2 :=
  C8_direct_shot_characterisation.2.1 (400, 500) ⟨400, 100, 20, 1, (0, 0, 0)⟩ 0
    (C8_direct_shot_characterisation.2.2 20 1 (0, 0, 0))

/-! ### Chain potential lemmas -/

noncomputable instance (t b : Bubble) : Decidable (chain_close t b) := by
  unfold chain_close
  infer_instance

instance (t b : Bubble) : Decidable (chain_close_int t b) := by
  unfold chain_close_int
  infer_instance

lemma chain_close_iff_int (t b : Bubble) : chain_close t b ↔ chain_close_int t b := by
  unfold chain_close chain_close_int
  constructor
  · intro h
    have he : (0 : ℝ) < ((t.radius : ℝ) + (b.radius : ℝ)) * 1.5 :=
      lt_of_le_of_lt (Real.sqrt_nonneg _) h
    have hr : (0 : ℤ) < t.radius + b.radius := by
      have : (0 : ℝ) < (t.radius : ℝ) + (b.radius : ℝ) := by nlinarith
      exact_mod_cast this
    refine ⟨hr, ?_⟩
    have hsq := (Real.sqrt_lt' he).mp h
    have h4 : (4 : ℝ) * (((b.x : ℝ) - t.x) ^ 2 + ((b.y : ℝ) - t.y) ^ 2) <
        9 * ((t.radius : ℝ) + (b.radius : ℝ)) ^ 2 := by nlinarith
    have := h4
    push_cast at this
    exact_mod_cast this
  · rintro ⟨hr, hlt⟩
    have hrr : (0 : ℝ) < (t.radius : ℝ) + (b.radius : ℝ) := by exact_mod_cast hr
    have he : (0 : ℝ) < ((t.radius : ℝ) + (b.radius : ℝ)) * 1.5 := by nlinarith
    rw [Real.sqrt_lt' he]
    have h4 : (4 : ℝ) * (((b.x : ℝ) - t.x) ^ 2 + ((b.y : ℝ) - t.y) ^ 2) <
        9 * ((t.radius : ℝ) + (b.radius : ℝ)) ^ 2 := by exact_mod_cast hlt
    nlinarith

lemma chain_potential_aux (t : Bubble) : ∀ (l : List Bubble) (n : ℕ),
    l.foldl
      (fun chain_count bubble =>
        if bubble ≠ t then
          if Real.sqrt (((bubble.x : ℝ) - t.x) ^ 2 + ((bubble.y : ℝ) - t.y) ^ 2)
              < ((t.radius : ℝ) + (bubble.radius : ℝ)) * 1.5 then
            chain_count + 1
          else chain_count
        else chain_count) n =
      n + l.countP fun b => decide (b ≠ t ∧ chain_close t b)
  | [], n => by simp
  | b :: l, n => by
    rw [List.foldl_cons, List.countP_cons, chain_potential_aux t l]
    by_cases h1 : b ≠ t
    · by_cases h2 : chain_close t b
      · have h2x : Real.sqrt (((b.x : ℝ) - t.x) ^ 2 + ((b.y : ℝ) - t.y) ^ 2)
            < ((t.radius : ℝ) + (b.radius : ℝ)) * 1.5 := h2
        have hcond : decide (b ≠ t ∧ chain_close t b) = true := by
          simp only [decide_eq_true_eq]
          exact ⟨h1, h2⟩
        rw [if_pos h1, if_pos h2x, hcond]
        norm_num
        omega
      · have h2x : ¬ (Real.sqrt (((b.x : ℝ) - t.x) ^ 2 + ((b.y : ℝ) - t.y) ^ 2)
            < ((t.radius : ℝ) + (b.radius : ℝ)) * 1.5) := h2
        have hcond : decide (b ≠ t ∧ chain_close t b) = false := by
          simp only [decide_eq_false_iff_not]
          exact fun hc => h2 hc.2
        rw [if_pos h1, if_neg h2x, hcond]
        norm_num
    · have hcond : decide (b ≠ t ∧ chain_close t b) = false := by
        simp only [decide_eq_false_iff_not]
        exact fun hc => h1 hc.1
      rw [if_neg h1, hcond]
      norm_num

lemma chain_potential_eq_countP (t : Bubble) (all : List Bubble) :
    _calculate_chain_potential t all =
      all.countP fun b => decide (b ≠ t ∧ chain_close t b) := by
  unfold _calculate_chain_potential
  simpa using chain_potential_aux t all 0

lemma chain_potential_eq_countP_int (t : Bubble) (all : List Bubble) :
    _calculate_chain_potential t all =
      all.countP fun b => decide (b ≠ t ∧ chain_close_int t b) := by
  rw [chain_potential_eq_countP]
  apply List.countP_congr
  intro b _
  simp only [decide_eq_true_eq]
  constructor
  · rintro ⟨hb, hc⟩
    exact ⟨hb, (chain_close_iff_int t b).mp hc⟩
  · rintro ⟨hb, hc⟩
    exact ⟨hb, (chain_close_iff_int t b).mpr hc⟩

/-! ### Height factor lemmas -/

lemma le_foldl_max (l : List ℤ) (a : ℤ) : a ≤ l.foldl max a := by
  induction l generalizing a with
  | nil => simp
  | cons h t ih => exact le_trans (le_max_left a h) (ih (max a h))

lemma mem_le_foldl_max {x : ℤ} (l : List ℤ) (a : ℤ) (h : x ∈ l) :
    x ≤ l.foldl max a := by
  induction l generalizing a with
  | nil => cases h
  | cons hd t ih =>
    rcases List.mem_cons.mp h with rfl | hm
    · exact le_trans (le_max_right a x) (le_foldl_max t _)
    · exact ih (max a hd) hm

lemma le_max_y_of {b t : Bubble} {all : List Bubble} (h : b ∈ all) :
    b.y ≤ max_y_of t all := by
  unfold max_y_of
  cases hall : all.map Bubble.y with
  | nil =>
    rw [List.map_eq_nil_iff] at hall
    subst hall
    cases h
  | cons hy ty =>
    have hby : b.y ∈ all.map Bubble.y := List.mem_map_of_mem _ h
    rw [hall] at hby
    rcases List.mem_cons.mp hby with heq | hm
    · rw [heq]
      exact le_foldl_max ty hy
    · exact mem_le_foldl_max ty hy hm

lemma height_factor_nonneg {t : Bubble} {all : List Bubble} (h : t ∈ all) :
    0 ≤ height_factor t all := by
  simp only [height_factor]
  split_ifs with hmy
  · apply div_nonneg
    · have hy : (t.y : ℝ) ≤ (max_y_of t all : ℝ) := by exact_mod_cast le_max_y_of h
      linarith
    · exact_mod_cast hmy.le
  · exact le_rfl

lemma max_y_of_congr {t u : Bubble} {allt allu : List Bubble}
    (hy : t.y = u.y) (hmap : allt.map Bubble.y = allu.map Bubble.y) :
    max_y_of t allt = max_y_of u allu := by
  unfold max_y_of
  rw [hmap, hy]

lemma height_factor_congr {t u : Bubble} {allt allu : List Bubble}
    (hy : t.y = u.y) (hmap : allt.map Bubble.y = allu.map Bubble.y) :
    height_factor t allt = height_factor u allu := by
  simp only [height_factor]
  rw [max_y_of_congr hy hmap, hy]

lemma height_factor_eq_zero {t : Bubble} {all : List Bubble}
    (hy : t.y = max_y_of t all) : height_factor t all = 0 := by
  simp only [height_factor]
  split_ifs with hmy
  · rw [← hy]
    simp
  · rfl

lemma height_factor_of_pos {t : Bubble} {all : List Bubble}
    (hpos : 0 < max_y_of t all) :
    height_factor t all =
      ((max_y_of t all : ℝ) - (t.y : ℝ)) / (max_y_of t all : ℝ) := by
  simp only [height_factor]
  rw [if_pos hpos]

/-! ### Score shape lemmas -/

lemma evaluate_shot_eq (t : Bubble) (all : List Bubble) (d : Bool) :
    _evaluate_shot t all d =
      ((10 - t.hit_count : ℤ) : ℝ) * 10 + height_factor t all * 20 +
        (if d then (15 : ℝ) else 0) + (_calculate_chain_potential t all : ℝ) * 5 := by
  unfold _evaluate_shot
  cases d
  · simp only [Bool.false_eq_true, if_false]
    push_cast
    ring
  · simp only [if_true]
    push_cast
    ring

lemma evaluate_shot_nonneg {t : Bubble} {all : List Bubble} (ht : t.hit_count ≤ 10)
    (hmem : t ∈ all) (d : Bool) : 0 ≤ _evaluate_shot t all d := by
  rw [evaluate_shot_eq]
  have h1 : (0 : ℝ) ≤ ((10 - t.hit_count : ℤ) : ℝ) := by
    have : (0 : ℤ) ≤ 10 - t.hit_count := by omega
    exact_mod_cast this
  have h2 := height_factor_nonneg hmem
  have h3 : (0 : ℝ) ≤ (_calculate_chain_potential t all : ℝ) := Nat.cast_nonneg _
  have h4 : (0 : ℝ) ≤ (if d then (15 : ℝ) else 0) := by
    cases d
    · simp
    · norm_num
  nlinarith

/-- Claim C10: the chain potential of a target equals the number of bubbles
in the list that are not equal to the target by value and whose
center-to-center Euclidean distance to the target is strictly less than 1.5
times the sum of the two radii; consequently a duplicate bubble equal to
the target by value never contributes. -/
theorem C10_chain_potential_count :
    (∀ (t : Bubble) (all : List Bubble),
      _calculate_chain_potential t all =
        all.countP fun b => decide (b ≠ t ∧ chain_close t b)) ∧
    (∀ (t : Bubble) (l1 l2 : List Bubble),
      _calculate_chain_potential t (l1 ++ t :: l2) =
        _calculate_chain_potential t (l1 ++ l2)) := by
  refine ⟨chain_potential_eq_countP, ?_⟩
  intro t l1 l2
  rw [chain_potential_eq_countP, chain_potential_eq_countP, List.countP_append,
    List.countP_append, List.countP_cons]
  simp

/-- Claim C7 (counterexample): with bubbles at y = 100 and y = 400 and the
target being the tallest (y = 100) bubble, the code computes a height factor
of 3/4, not the value 1 demanded by normalizing against the tallest
(smallest-y) bubble: the code normalizes against the lowest (largest-y)
bubble's coordinate instead. -/
theorem C7_height_factor_counterexample :
    height_factor ⟨100, 100, 20, 1, (0, 0, 0)⟩
        [⟨100, 100, 20, 1, (0, 0, 0)⟩, ⟨100, 400, 20, 1, (0, 0, 0)⟩] = 3 / 4 ∧
    height_factor_claimed ⟨100, 100, 20, 1, (0, 0, 0)⟩
        [⟨100, 100, 20, 1, (0, 0, 0)⟩, ⟨100, 400, 20, 1, (0, 0, 0)⟩] = 1 ∧
    (3 / 4 : ℝ) ≠ 1 := by
  have hmax : max_y_of ⟨100, 100, 20, 1, (0, 0, 0)⟩
      [⟨100, 100, 20, 1, (0, 0, 0)⟩, ⟨100, 400, 20, 1, (0, 0, 0)⟩] = 400 := by decide
  have hmin : min_y_of ⟨100, 100, 20, 1, (0, 0, 0)⟩
      [⟨100, 100, 20, 1, (0, 0, 0)⟩, ⟨100, 400, 20, 1, (0, 0, 0)⟩] = 100 := by decide
  refine ⟨?_, ?_, by norm_num⟩
  · simp only [height_factor, hmax]
    norm_num
  · simp only [height_factor_claimed, hmax, hmin]
    norm_num

/-- Claim C7 (amended): the height factor is the target's y normalized
against the lowest (largest-y) bubble's coordinate: it is 0 whenever the
target is the lowest bubble present, it strictly increases as the target's
y decreases (with the lowest bubble fixed and below y = 0), and it reaches
1 exactly at y = 0, the top of the screen - not at the tallest bubble. -/
theorem C7_height_factor_amended :
    (∀ (t : Bubble) (all : List Bubble),
      t.y = max_y_of t all → height_factor t all = 0) ∧
    (∀ (t u : Bubble) (allt allu : List Bubble),
      max_y_of t allt = max_y_of u allu → 0 < max_y_of t allt → u.y < t.y →
        height_factor t allt < height_factor u allu) ∧
    (∀ (t : Bubble) (all : List Bubble),
      0 < max_y_of t all → t.y = 0 → height_factor t all = 1) := by
  refine ⟨?_, ?_, ?_⟩
  · intro t all hy
    exact height_factor_eq_zero hy
  · intro t u allt allu hmax hpos hy
    have hposu : (0 : ℝ) < (max_y_of t allt : ℝ) := by exact_mod_cast hpos
    simp only [height_factor, ← hmax]
    rw [if_pos hpos, if_pos hpos]
    rw [div_lt_div_iff_of_pos_right hposu]
    have : (u.y : ℝ) < (t.y : ℝ) := by exact_mod_cast hy
    linarith
  · intro t all hpos hy
    have hposr : (0 : ℝ) < (max_y_of t all : ℝ) := by exact_mod_cast hpos
    simp only [height_factor]
    rw [if_pos hpos, hy]
    push_cast
    field_simp

/-- Witness for the amended claim C7: concrete boards exhibiting the zero
case, the strict monotonicity case and the top-of-screen case. -/
theorem C7_height_factor_amended_witness :
    height_factor ⟨0, 20, 5, 1, (0, 0, 0)⟩ [⟨0, 20, 5, 1, (0, 0, 0)⟩] = 0 ∧
    height_factor ⟨0, 10, 5, 1, (0, 0, 0)⟩
        [⟨0, 10, 5, 1, (0, 0, 0)⟩, ⟨0, 20, 5, 1, (0, 0, 0)⟩] <
      height_factor ⟨0, 5, 5, 1, (0, 0, 0)⟩
        [⟨0, 5, 5, 1, (0, 0, 0)⟩, ⟨0, 20, 5, 1, (0, 0, 0)⟩] ∧
    height_factor ⟨0, 0, 5, 1, (0, 0, 0)⟩
        [⟨0, 0, 5, 1, (0, 0, 0)⟩, ⟨0, 20, 5, 1, (0, 0, 0)⟩] = 1 :=
  ⟨C7_height_factor_amended.1 _ _ (by decide),
    C7_height_factor_amended.2.1 _ _ _ _ (by decide) (by decide) (by decide),
    C7_height_factor_amended.2.2 _ _ (by decide) rfl⟩

/-- Claim C6 (counterexample): with four bubbles equal by value to the
hit-count-1 version of the target in the list, decreasing the target's hit
count from 2 to 1 strictly decreases the score (the equal-by-value copies
stop counting toward the chain potential), refuting strict monotonicity in
the hit count. -/
theorem C6_hit_count_counterexample :
    _evaluate_shot ⟨0, 10, 10, 1, (0, 0, 0)⟩
        [⟨0, 10, 10, 1, (0, 0, 0)⟩, ⟨0, 10, 10, 1, (0, 0, 0)⟩,
          ⟨0, 10, 10, 1, (0, 0, 0)⟩, ⟨0, 10, 10, 1, (0, 0, 0)⟩,
          ⟨0, 10, 10, 2, (0, 0, 0)⟩] true <
      _evaluate_shot ⟨0, 10, 10, 2, (0, 0, 0)⟩
        [⟨0, 10, 10, 1, (0, 0, 0)⟩, ⟨0, 10, 10, 1, (0, 0, 0)⟩,
          ⟨0, 10, 10, 1, (0, 0, 0)⟩, ⟨0, 10, 10, 1, (0, 0, 0)⟩,
          ⟨0, 10, 10, 2, (0, 0, 0)⟩] true := by
  rw [evaluate_shot_eq, evaluate_shot_eq,
    chain_potential_eq_countP_int, chain_potential_eq_countP_int]
  have hc1 : List.countP
      (fun b => decide (b ≠ (⟨0, 10, 10, 1, (0, 0, 0)⟩ : Bubble) ∧
        chain_close_int ⟨0, 10, 10, 1, (0, 0, 0)⟩ b))
      [⟨0, 10, 10, 1, (0, 0, 0)⟩, ⟨0, 10, 10, 1, (0, 0, 0)⟩,
        ⟨0, 10, 10, 1, (0, 0, 0)⟩, ⟨0, 10, 10, 1, (0, 0, 0)⟩,
        ⟨0, 10, 10, 2, (0, 0, 0)⟩] = 1 := by decide
  have hc2 : List.countP
      (fun b => decide (b ≠ (⟨0, 10, 10, 2, (0, 0, 0)⟩ : Bubble) ∧
        chain_close_int ⟨0, 10, 10, 2, (0, 0, 0)⟩ b))
      [⟨0, 10, 10, 1, (0, 0, 0)⟩, ⟨0, 10, 10, 1, (0, 0, 0)⟩,
        ⟨0, 10, 10, 1, (0, 0, 0)⟩, ⟨0, 10, 10, 1, (0, 0, 0)⟩,
        ⟨0, 10, 10, 2, (0, 0, 0)⟩] = 4 := by decide
  rw [hc1, hc2]
  rw [height_factor_eq_zero (by decide), height_factor_eq_zero (by decide)]
  norm_num

/-- Claim C6 (amended): scoring is strictly monotonic in the intended
directions provided no other list entry is equal by value to the target
before or after the change: with the target's position, radius, color, the
rest of the bubble list and the shot kind fixed, and no bubble of the rest
equal by value to either version of the target, decreasing the hit count
strictly increases the score; with hit count and chain potential fixed,
increasing the height factor strictly increases the score; and a direct
shot always scores strictly higher than an otherwise-identical bounced
shot. -/
theorem C6_scoring_monotonicity_amended :
    (∀ (x y r : ℤ) (col : ℤ × ℤ × ℤ) (h1 h2 : ℤ) (rest : List Bubble) (d : Bool),
      h1 < h2 →
      (∀ b ∈ rest, b ≠ Bubble.mk x y r h1 col ∧ b ≠ Bubble.mk x y r h2 col) →
      _evaluate_shot ⟨x, y, r, h2, col⟩ (rest ++ [⟨x, y, r, h2, col⟩]) d <
        _evaluate_shot ⟨x, y, r, h1, col⟩ (rest ++ [⟨x, y, r, h1, col⟩]) d) ∧
    (∀ (t u : Bubble) (allt allu : List Bubble) (d : Bool),
      t.hit_count = u.hit_count →
      _calculate_chain_potential t allt = _calculate_chain_potential u allu →
      height_factor t allt < height_factor u allu →
      _evaluate_shot t allt d < _evaluate_shot u allu d) ∧
    (∀ (t : Bubble) (all : List Bubble),
      _evaluate_shot t all false < _evaluate_shot t all true) := by
  refine ⟨?_, ?_, ?_⟩
  · intro x y r col h1 h2 rest d hlt hne
    have hmap : (rest ++ [Bubble.mk x y r h2 col]).map Bubble.y =
        (rest ++ [Bubble.mk x y r h1 col]).map Bubble.y := by simp
    have hf := height_factor_congr (t := Bubble.mk x y r h2 col)
      (u := Bubble.mk x y r h1 col) rfl hmap
    have hchain : _calculate_chain_potential (Bubble.mk x y r h2 col)
        (rest ++ [Bubble.mk x y r h2 col]) =
      _calculate_chain_potential (Bubble.mk x y r h1 col)
        (rest ++ [Bubble.mk x y r h1 col]) := by
      rw [chain_potential_eq_countP, chain_potential_eq_countP,
        List.countP_append, List.countP_append]
      have e2 : List.countP
          (fun b => decide (b ≠ Bubble.mk x y r h2 col ∧
            chain_close (Bubble.mk x y r h2 col) b)) [Bubble.mk x y r h2 col] = 0 := by
        simp [List.countP_cons]
      have e1 : List.countP
          (fun b => decide (b ≠ Bubble.mk x y r h1 col ∧
            chain_close (Bubble.mk x y r h1 col) b)) [Bubble.mk x y r h1 col] = 0 := by
        simp [List.countP_cons]
      rw [e1, e2]
      congr 1
      apply List.countP_congr
      intro b hb
      simp only [decide_eq_true_eq]
      constructor
      · rintro ⟨-, hc⟩
        exact ⟨(hne b hb).1, hc⟩
      · rintro ⟨-, hc⟩
        exact ⟨(hne b hb).2, hc⟩
    rw [evaluate_shot_eq, evaluate_shot_eq, hf, hchain]
    have hcast : (h1 : ℝ) < (h2 : ℝ) := by exact_mod_cast hlt
    push_cast
    linarith
  · intro t u allt allu d hhit hchain hhf
    rw [evaluate_shot_eq, evaluate_shot_eq, hhit, hchain]
    linarith
  · intro t all
    rw [evaluate_shot_eq, evaluate_shot_eq]
    norm_num

/-- Witness for the amended claim C6: a concrete hit-count decrease with no
duplicates, a concrete height-factor increase with fixed hit count and
chain potential, and a concrete direct-versus-bounced comparison. -/
theorem C6_scoring_monotonicity_amended_witness :
    (_evaluate_shot ⟨0, 10, 5, 2, (0, 0, 0)⟩ ([] ++ [⟨0, 10, 5, 2, (0, 0, 0)⟩]) false <
      _evaluate_shot ⟨0, 10, 5, 1, (0, 0, 0)⟩ ([] ++ [⟨0, 10, 5, 1, (0, 0, 0)⟩]) false) ∧
    (_evaluate_shot ⟨0, 10, 1, 1, (0, 0, 0)⟩
        [⟨0, 10, 1, 1, (0, 0, 0)⟩, ⟨30, 20, 1, 1, (0, 0, 0)⟩] true <
      _evaluate_shot ⟨0, 5, 1, 1, (0, 0, 0)⟩
        [⟨0, 5, 1, 1, (0, 0, 0)⟩, ⟨30, 20, 1, 1, (0, 0, 0)⟩] true) ∧
    (_evaluate_shot ⟨0, 10, 5, 1, (0, 0, 0)⟩ [⟨0, 10, 5, 1, (0, 0, 0)⟩] false <
      _evaluate_shot ⟨0, 10, 5, 1, (0, 0, 0)⟩ [⟨0, 10, 5, 1, (0, 0, 0)⟩] true) :=
  ⟨C6_scoring_monotonicity_amended.1 0 10 5 (0, 0, 0) 1 2 [] false (by norm_num)
      (by simp),
    C6_scoring_monotonicity_amended.2.1 ⟨0, 10, 1, 1, (0, 0, 0)⟩ ⟨0, 5, 1, 1, (0, 0, 0)⟩
      [⟨0, 10, 1, 1, (0, 0, 0)⟩, ⟨30, 20, 1, 1, (0, 0, 0)⟩]
      [⟨0, 5, 1, 1, (0, 0, 0)⟩, ⟨30, 20, 1, 1, (0, 0, 0)⟩] true rfl
      (by
        rw [chain_potential_eq_countP_int, chain_potential_eq_countP_int]
        decide)
      (by
        have hm1 : max_y_of ⟨0, 10, 1, 1, (0, 0, 0)⟩
            [⟨0, 10, 1, 1, (0, 0, 0)⟩, ⟨30, 20, 1, 1, (0, 0, 0)⟩] = 20 := by decide
        have hm2 : max_y_of ⟨0, 5, 1, 1, (0, 0, 0)⟩
            [⟨0, 5, 1, 1, (0, 0, 0)⟩, ⟨30, 20, 1, 1, (0, 0, 0)⟩] = 20 := by decide
        rw [height_factor_of_pos (by rw [hm1]; norm_num),
          height_factor_of_pos (by rw [hm2]; norm_num), hm1, hm2]
        norm_num),
    C6_scoring_monotonicity_amended.2.2 ⟨0, 10, 5, 1, (0, 0, 0)⟩
      [⟨0, 10, 5, 1, (0, 0, 0)⟩]⟩

/-! ### Selector fold lemmas -/

lemma bounced_fold_no_improve {target : Bubble} {bubbles : List Bubble}
    {acc : Option (ℝ × Bubble) × ℝ}
    (h : ¬ _evaluate_shot target bubbles false > acc.2) :
    ∀ shots, bounced_fold target bubbles acc shots = acc := by
  intro shots
  induction shots with
  | nil => rfl
  | cons s shots ih =>
    unfold bounced_fold at ih ⊢
    rw [List.foldl_cons]
    simpa [if_neg h] using ih

lemma bounced_fold_none {target : Bubble} {bubbles : List Bubble} :
    ∀ (shots : List (ℝ × ℕ)) (acc : Option (ℝ × Bubble) × ℝ),
    (bounced_fold target bubbles acc shots).1 = none →
    bounced_fold target bubbles acc shots = acc ∧
      (shots = [] ∨ ¬ _evaluate_shot target bubbles false > acc.2) := by
  intro shots
  induction shots with
  | nil => exact fun acc _ => ⟨rfl, Or.inl rfl⟩
  | cons s shots ih =>
    intro acc h
    by_cases hs : _evaluate_shot target bubbles false > acc.2
    · exfalso
      have hstep : bounced_fold target bubbles acc (s :: shots) =
          bounced_fold target bubbles
            (some (s.1, target), _evaluate_shot target bubbles false) shots := by
        unfold bounced_fold
        rw [List.foldl_cons, if_pos hs]
      rw [hstep] at h
      obtain ⟨heq, -⟩ := ih _ h
      rw [heq] at h
      exact absurd h (by simp)
    · have hstep : bounced_fold target bubbles acc (s :: shots) =
          bounced_fold target bubbles acc shots := by
        unfold bounced_fold
        rw [List.foldl_cons, if_neg hs]
      rw [hstep] at h ⊢
      obtain ⟨heq, -⟩ := ih _ h
      exact ⟨heq, Or.inr hs⟩

lemma shot_step_none {gs : GameState} {acc : Option (ℝ × Bubble) × ℝ} {b : Bubble}
    (h : (shot_step gs acc b).1 = none) :
    shot_step gs acc b = acc ∧
      (∀ a, _calculate_direct_shot gs.shooter_position b = some a →
        ¬ _evaluate_shot b gs.bubbles true > acc.2) ∧
      (_calculate_bounced_shots gs b = [] ∨
        ¬ _evaluate_shot b gs.bubbles false > acc.2) := by
  cases hdir : _calculate_direct_shot gs.shooter_position b with
  | none =>
    have hred : shot_step gs acc b =
        bounced_fold b gs.bubbles acc (_calculate_bounced_shots gs b) := by
      unfold shot_step
      rw [hdir]
    rw [hred] at h ⊢
    obtain ⟨heq, hrest⟩ := bounced_fold_none _ _ h
    exact ⟨heq, fun a ha => absurd ha (by simp), hrest⟩
  | some a =>
    by_cases hd : _evaluate_shot b gs.bubbles true > acc.2
    · exfalso
      have hred : shot_step gs acc b =
          bounced_fold b gs.bubbles (some (a, b), _evaluate_shot b gs.bubbles true)
            (_calculate_bounced_shots gs b) := by
        unfold shot_step
        rw [hdir]
        dsimp only
        rw [if_pos hd]
      rw [hred] at h
      obtain ⟨heq, -⟩ := bounced_fold_none _ _ h
      rw [heq] at h
      exact absurd h (by simp)
    · have hred : shot_step gs acc b =
          bounced_fold b gs.bubbles acc (_calculate_bounced_shots gs b) := by
        unfold shot_step
        rw [hdir]
        dsimp only
        rw [if_neg hd]
      rw [hred] at h ⊢
      obtain ⟨heq, hrest⟩ := bounced_fold_none _ _ h
      exact ⟨heq, fun a0 ha0 => hd, hrest⟩

lemma plan_fold_none {gs : GameState} :
    ∀ (l : List Bubble) (acc : Option (ℝ × Bubble) × ℝ),
    (l.foldl (shot_step gs) acc).1 = none →
    l.foldl (shot_step gs) acc = acc ∧
      ∀ b ∈ l,
        (∀ a, _calculate_direct_shot gs.shooter_position b = some a →
          ¬ _evaluate_shot b gs.bubbles true > acc.2) ∧
        (_calculate_bounced_shots gs b = [] ∨
          ¬ _evaluate_shot b gs.bubbles false > acc.2) := by
  intro l
  induction l with
  | nil => exact fun acc _ => ⟨rfl, by simp⟩
  | cons b l ih =>
    intro acc h
    rw [List.foldl_cons] at h ⊢
    obtain ⟨heq, hall⟩ := ih _ h
    have hstep : (shot_step gs acc b).1 = none := by
      rw [heq] at h
      exact h
    obtain ⟨hid, hd, hb⟩ := shot_step_none hstep
    refine ⟨heq.trans hid, ?_⟩
    intro b1 hb1
    rcases List.mem_cons.mp hb1 with rfl | hmem
    · exact ⟨hd, hb⟩
    · have hmem2 := hall b1 hmem
      rw [hid] at hmem2
      exact hmem2

lemma shot_step_id {gs : GameState} {acc : Option (ℝ × Bubble) × ℝ} {b : Bubble}
    (hd : _calculate_direct_shot gs.shooter_position b = none)
    (hb : _calculate_bounced_shots gs b = []) : shot_step gs acc b = acc := by
  unfold shot_step
  rw [hd, hb]
  rfl

lemma plan_fold_id {gs : GameState} :
    ∀ (l : List Bubble) (acc : Option (ℝ × Bubble) × ℝ),
    (∀ b ∈ l, _calculate_direct_shot gs.shooter_position b = none ∧
      _calculate_bounced_shots gs b = []) →
    l.foldl (shot_step gs) acc = acc := by
  intro l
  induction l with
  | nil => exact fun acc _ => rfl
  | cons b l ih =>
    intro acc hall
    rw [List.foldl_cons,
      shot_step_id (hall b (List.mem_cons_self b l)).1 (hall b (List.mem_cons_self b l)).2]
    exact ih acc fun b1 h1 => hall b1 (List.mem_cons_of_mem b h1)

lemma mem_sort_bubbles {b : Bubble} {l : List Bubble} :
    b ∈ sort_bubbles l ↔ b ∈ l :=
  (List.mergeSort_perm l bubble_key_le).mem_iff

/-- Claim C2 (amended): for snapshots in which every bubble needs at most 10
hits, the planner returns None exactly when no bubble yields a viable direct
or bounced shot - in particular for every empty snapshot.  (Without the
hit-count bound, a viable shot can score at or below the initial best score
of -1 and be discarded, see the counterexample.) -/
theorem C2_plan_none_iff_amended :
    ∀ gs : GameState, (∀ b ∈ gs.bubbles, b.hit_count ≤ 10) →
      (calculate_best_shot gs = none ↔
        ∀ b ∈ gs.bubbles,
          _calculate_direct_shot gs.shooter_position b = none ∧
          _calculate_bounced_shots gs b = []) := by
  intro gs hhits
  by_cases hemp : gs.bubbles = []
  · constructor
    · intro _ b hb
      rw [hemp] at hb
      cases hb
    · intro _
      unfold calculate_best_shot
      rw [if_pos hemp]
  · unfold calculate_best_shot
    rw [if_neg hemp]
    constructor
    · intro h b hb
      obtain ⟨-, hall⟩ := plan_fold_none (sort_bubbles gs.bubbles) (none, -1) h
      obtain ⟨hd, hbounce⟩ := hall b (mem_sort_bubbles.mpr hb)
      have hgt : ∀ d, _evaluate_shot b gs.bubbles d > ((none : Option (ℝ × Bubble)), (-1 : ℝ)).2 := by
        intro d
        have := evaluate_shot_nonneg (hhits b hb) hb d
        simp only []
        linarith
      constructor
      · cases hdir : _calculate_direct_shot gs.shooter_position b with
        | none => rfl
        | some a => exact absurd (hgt true) (hd a hdir)
      · rcases hbounce with hb0 | hb1
        · exact hb0
        · exact absurd (hgt false) hb1
    · intro hall
      rw [plan_fold_id _ _ fun b hb => hall b (mem_sort_bubbles.mp hb)]

/-- Witness for the amended claim C2 at the empty snapshot: the planner
returns None there, by the amended equivalence. -/
theorem C2_plan_none_iff_amended_witness :
    calculate_best_shot ⟨[], (400, 500), [], (0, 0, 800, 600)⟩ = none :=
  (C2_plan_none_iff_amended ⟨[], (400, 500), [], (0, 0, 800, 600)⟩ (by simp)).mpr
    (by simp)

/-- Claim C2 (counterexample): a snapshot with one bubble directly above the
shooter needing 12 hits.  The direct shot is viable (angle 0), but every
candidate score (-5 direct, -20 bounced) fails the strict improvement test
against the initial best score of -1, so the planner returns None although a
viable direct shot exists - refuting the claimed iff. -/
theorem C2_plan_counterexample :
    calculate_best_shot
        ⟨[⟨400, 100, 10, 12, (0, 0, 0)⟩], (400, 500), [], (0, 0, 800, 600)⟩ = none ∧
    _calculate_direct_shot (400, 500) ⟨400, 100, 10, 12, (0, 0, 0)⟩ = some 0 := by
  have hdir : _calculate_direct_shot (400, 500) ⟨400, 100, 10, 12, (0, 0, 0)⟩ =
      some 0 := by
    rw [direct_shot_of_above (400, 500) ⟨400, 100, 10, 12, (0, 0, 0)⟩ (by norm_num)]
    norm_num
    rw [atan2_pos_x 0 400 (by norm_num)]
    norm_num
  have hchain : _calculate_chain_potential ⟨400, 100, 10, 12, (0, 0, 0)⟩
      [⟨400, 100, 10, 12, (0, 0, 0)⟩] = 0 := by
    rw [chain_potential_eq_countP_int]
    decide
  have hscd : _evaluate_shot ⟨400, 100, 10, 12, (0, 0, 0)⟩
      [⟨400, 100, 10, 12, (0, 0, 0)⟩] true = -5 := by
    rw [evaluate_shot_eq, height_factor_eq_zero (by decide), hchain]
    norm_num
  have hscb : _evaluate_shot ⟨400, 100, 10, 12, (0, 0, 0)⟩
      [⟨400, 100, 10, 12, (0, 0, 0)⟩] false = -20 := by
    rw [evaluate_shot_eq, height_factor_eq_zero (by decide), hchain]
    norm_num
  refine ⟨?_, hdir⟩
  unfold calculate_best_shot
  dsimp only
  rw [if_neg (by simp : ¬ ([(⟨400, 100, 10, 12, (0, 0, 0)⟩ : Bubble)] = [])),
    show sort_bubbles [(⟨400, 100, 10, 12, (0, 0, 0)⟩ : Bubble)] =
      [(⟨400, 100, 10, 12, (0, 0, 0)⟩ : Bubble)] from List.mergeSort_singleton _,
    List.foldl_cons, List.foldl_nil]
  have hstep : shot_step
      ⟨[⟨400, 100, 10, 12, (0, 0, 0)⟩], (400, 500), [], (0, 0, 800, 600)⟩
      (none, -1) ⟨400, 100, 10, 12, (0, 0, 0)⟩ = (none, -1) := by
    unfold shot_step
    dsimp only
    rw [hdir]
    dsimp only
    rw [hscd, if_neg (by norm_num : ¬ (-5 : ℝ) > -1)]
    exact bounced_fold_no_improve (by rw [hscb]; norm_num) _
  rw [hstep]

/-- Claim C9 (evaluation at the failing input): a snapshot with a degenerate
play area of zero width and height and a shooter outside it is processed
without any failure: the planner silently returns a normal shot (angle 0 at
the bubble above the shooter) instead of failing fast. -/
theorem C9_degenerate_snapshot_returns_shot :
    calculate_best_shot ⟨[⟨5, 2, 1, 1, (0, 0, 0)⟩], (5, 10), [], (0, 0, 0, 0)⟩ =
      some (0, ⟨5, 2, 1, 1, (0, 0, 0)⟩) := by
  have hdir : _calculate_direct_shot (5, 10) ⟨5, 2, 1, 1, (0, 0, 0)⟩ = some 0 := by
    rw [direct_shot_of_above (5, 10) ⟨5, 2, 1, 1, (0, 0, 0)⟩ (by norm_num)]
    norm_num
    rw [atan2_pos_x 0 8 (by norm_num)]
    norm_num
  have hchain : _calculate_chain_potential ⟨5, 2, 1, 1, (0, 0, 0)⟩
      [⟨5, 2, 1, 1, (0, 0, 0)⟩] = 0 := by
    rw [chain_potential_eq_countP_int]
    decide
  have hscd : _evaluate_shot ⟨5, 2, 1, 1, (0, 0, 0)⟩ [⟨5, 2, 1, 1, (0, 0, 0)⟩] true
      = 105 := by
    rw [evaluate_shot_eq, height_factor_eq_zero (by decide), hchain]
    norm_num
  have hscb : _evaluate_shot ⟨5, 2, 1, 1, (0, 0, 0)⟩ [⟨5, 2, 1, 1, (0, 0, 0)⟩] false
      = 90 := by
    rw [evaluate_shot_eq, height_factor_eq_zero (by decide), hchain]
    norm_num
  unfold calculate_best_shot
  dsimp only
  rw [if_neg (by simp : ¬ ([(⟨5, 2, 1, 1, (0, 0, 0)⟩ : Bubble)] = [])),
    show sort_bubbles [(⟨5, 2, 1, 1, (0, 0, 0)⟩ : Bubble)] =
      [(⟨5, 2, 1, 1, (0, 0, 0)⟩ : Bubble)] from List.mergeSort_singleton _,
    List.foldl_cons, List.foldl_nil]
  have hstep : shot_step ⟨[⟨5, 2, 1, 1, (0, 0, 0)⟩], (5, 10), [], (0, 0, 0, 0)⟩
      (none, -1) ⟨5, 2, 1, 1, (0, 0, 0)⟩ =
      (some (0, ⟨5, 2, 1, 1, (0, 0, 0)⟩), 105) := by
    unfold shot_step
    dsimp only
    rw [hdir]
    dsimp only
    rw [hscd, if_pos (by norm_num : (105 : ℝ) > -1)]
    exact bounced_fold_no_improve (by rw [hscb]; norm_num) _
  rw [hstep]

/-! ### Simulator loop lemmas -/

lemma sim_step_inr_shape {x_min y_min x_max y_max : ℤ} {target : Bubble}
    {st st1 : SimState}
    (h : sim_step x_min y_min x_max y_max target st = Sum.inr st1) :
    (∃ q, st1.traj = st.traj ++ [q]) ∧ st1.traj.length = st.traj.length + 1 ∧
      st1.traj.length ≤ 1000 := by
  simp only [sim_step] at h
  split_ifs at h
  all_goals cases h
  all_goals refine ⟨⟨_, rfl⟩, by simp, ?_⟩
  all_goals simp only [List.length_append, List.length_singleton] at *
  all_goals omega

lemma sim_step_inl_shape {x_min y_min x_max y_max : ℤ} {target : Bubble}
    {st d : SimState}
    (h : sim_step x_min y_min x_max y_max target st = Sum.inl d) :
    d.traj = st.traj ∨ ∃ q, d.traj = st.traj ++ [q] := by
  simp only [sim_step] at h
  split_ifs at h
  all_goals cases h
  all_goals
    first
    | exact Or.inl rfl
    | exact Or.inr ⟨_, rfl⟩

lemma sim_loop_traj_length_le (x_min y_min x_max y_max : ℤ) (target : Bubble) :
    ∀ (fuel : ℕ) (st : SimState),
      st.traj.length ≤
        (sim_loop x_min y_min x_max y_max target fuel st).traj.length := by
  intro fuel
  induction fuel with
  | zero => exact fun st => le_rfl
  | succ fuel ih =>
    intro st
    rw [sim_loop]
    cases h : sim_step x_min y_min x_max y_max target st with
    | inl d =>
      rcases sim_step_inl_shape h with heq | ⟨q, heq⟩
      · rw [heq]
      · rw [heq]
        simp
    | inr st1 =>
      obtain ⟨-, hlen, -⟩ := sim_step_inr_shape h
      calc st.traj.length ≤ st1.traj.length := by omega
      _ ≤ _ := ih st1

lemma sim_loop_traj_length_bound (x_min y_min x_max y_max : ℤ) (target : Bubble) :
    ∀ (fuel : ℕ) (st : SimState), st.traj.length ≤ 1000 →
      (sim_loop x_min y_min x_max y_max target fuel st).traj.length ≤ 1001 := by
  intro fuel
  induction fuel with
  | zero => exact fun st h => by simpa [sim_loop] using h.trans (by norm_num)
  | succ fuel ih =>
    intro st hst
    rw [sim_loop]
    cases h : sim_step x_min y_min x_max y_max target st with
    | inl d =>
      rcases sim_step_inl_shape h with heq | ⟨q, heq⟩
      · simp only [heq]
        omega
      · simp only [heq, List.length_append, List.length_singleton]
        omega
    | inr st1 =>
      obtain ⟨-, -, hle⟩ := sim_step_inr_shape h
      exact ih st1 hle

lemma sim_loop_fuel_eq (x_min y_min x_max y_max : ℤ) (target : Bubble) :
    ∀ (f1 f2 : ℕ) (st : SimState), st.traj.length ≤ 1000 →
      1001 ≤ st.traj.length + f1 → 1001 ≤ st.traj.length + f2 →
      sim_loop x_min y_min x_max y_max target f1 st =
        sim_loop x_min y_min x_max y_max target f2 st := by
  intro f1
  induction f1 with
  | zero => intro f2 st hst h1 h2; omega
  | succ f1 ih =>
    intro f2 st hst h1 h2
    cases f2 with
    | zero => omega
    | succ f2 =>
      rw [sim_loop, sim_loop]
      cases h : sim_step x_min y_min x_max y_max target st with
      | inl d => rfl
      | inr st1 =>
        obtain ⟨-, hlen, hle⟩ := sim_step_inr_shape h
        exact ih f2 st1 hle (by omega) (by omega)

/-- Claim C5: for every launch angle in [-pi/2, pi/2] (near-zero effective
velocities included), the simulation loop terminates within the fixed step
cap: running it with any fuel of at least 1000 iterations gives the very
same result as the reference run, and every returned trajectory has at most
1001 points. -/
theorem C5_simulation_bounded_termination :
    ∀ (start_pos : ℤ × ℤ) (angle : ℝ) (game_area : ℤ × ℤ × ℤ × ℤ)
      (target : Bubble) (fuel : ℕ),
      -(Real.pi / 2) ≤ angle → angle ≤ Real.pi / 2 → 1000 ≤ fuel →
      simulate_trajectory_fuel fuel start_pos angle game_area target =
        _simulate_trajectory start_pos angle game_area target ∧
      ∀ traj, _simulate_trajectory start_pos angle game_area target = some traj →
        traj.length ≤ 1001 := by
  intro start_pos angle area target fuel h1 h2 hfuel
  have hinit : (sim_init start_pos angle).traj.length = 1 := rfl
  have hloop := sim_loop_fuel_eq area.1 area.2.1 (area.1 + area.2.2.1)
    (area.2.1 + area.2.2.2) target fuel 1001 (sim_init start_pos angle)
    (by omega) (by omega) (by omega)
  constructor
  · unfold _simulate_trajectory simulate_trajectory_fuel
    dsimp only
    rw [hloop]
  · intro traj htraj
    unfold _simulate_trajectory simulate_trajectory_fuel at htraj
    dsimp only at htraj
    set stF := sim_loop area.1 area.2.1 (area.1 + area.2.2.1)
      (area.2.1 + area.2.2.2) target 1001 (sim_init start_pos angle) with hstF
    by_cases hl : stF.traj.length > 1
    · rw [if_pos hl] at htraj
      have hbound := sim_loop_traj_length_bound area.1 area.2.1
        (area.1 + area.2.2.1) (area.2.1 + area.2.2.2) target 1001
        (sim_init start_pos angle) (by omega)
      rw [← hstF] at hbound
      rw [← Option.some_injective _ htraj]
      exact hbound
    · rw [if_neg hl] at htraj
      cases htraj

/-- Witness for claim C5 at angle 0 with fuel 1000. -/
theorem C5_simulation_bounded_termination_witness :
    simulate_trajectory_fuel 1000 (5, 5) 0 (0, 0, 10, 10) ⟨50, 50, 5, 1, (0, 0, 0)⟩ =
      _simulate_trajectory (5, 5) 0 (0, 0, 10, 10) ⟨50, 50, 5, 1, (0, 0, 0)⟩ :=
  (C5_simulation_bounded_termination (5, 5) 0 (0, 0, 10, 10)
    ⟨50, 50, 5, 1, (0, 0, 0)⟩ 1000 (by linarith [Real.pi_pos])
    (by linarith [Real.pi_pos]) le_rfl).1

lemma sim_loop_succ_inl {x_min y_min x_max y_max : ℤ} {target : Bubble}
    {st d : SimState}
    (h : sim_step x_min y_min x_max y_max target st = Sum.inl d) (fuel : ℕ) :
    sim_loop x_min y_min x_max y_max target (fuel + 1) st = d := by
  rw [sim_loop, h]

lemma sim_loop_succ_inr {x_min y_min x_max y_max : ℤ} {target : Bubble}
    {st st1 : SimState}
    (h : sim_step x_min y_min x_max y_max target st = Sum.inr st1) (fuel : ℕ) :
    sim_loop x_min y_min x_max y_max target (fuel + 1) st =
      sim_loop x_min y_min x_max y_max target fuel st1 := by
  rw [sim_loop, h]

/-- Claim C3 (amended): the simulator returns None exactly when no sample
point beyond the origin is recorded, i.e. when the loop condition fails at
once (origin not strictly above the ceiling coordinate) or the very first
step already reaches the floor; in every other run that ends by falling
below the floor, exceeding the bounce budget or hitting the step cap
without reaching the target, the partial trajectory is returned as a
normal (feasible-looking) result instead of Infeasible. -/
theorem C3_simulator_none_characterisation :
    ∀ (start_pos : ℤ × ℤ) (angle : ℝ) (game_area : ℤ × ℤ × ℤ × ℤ) (target : Bubble),
      _simulate_trajectory start_pos angle game_area target = none ↔
        (¬ ((start_pos.2 : ℝ) > (game_area.2.1 : ℝ)) ∨
          (start_pos.2 : ℝ) + -bullet_speed * Real.cos angle * sim_dt ≥
            ((game_area.2.1 + game_area.2.2.2 : ℤ) : ℝ)) := by
  intro sp angle area target
  unfold _simulate_trajectory simulate_trajectory_fuel
  dsimp only
  rw [show (1001 : ℕ) = 1000 + 1 from rfl]
  by_cases hc1 : (sp.2 : ℝ) > (area.2.1 : ℝ)
  · have hcond : (sim_init sp angle).bounces ≤ max_bounces ∧
        (sim_init sp angle).y > ((area.2.1 : ℤ) : ℝ) := ⟨Nat.zero_le _, hc1⟩
    by_cases hc2 : (sp.2 : ℝ) + -bullet_speed * Real.cos angle * sim_dt ≥
        ((area.2.1 + area.2.2.2 : ℤ) : ℝ)
    · obtain ⟨d, hd, hdtraj⟩ : ∃ d, sim_step area.1 area.2.1 (area.1 + area.2.2.1)
          (area.2.1 + area.2.2.2) target (sim_init sp angle) = Sum.inl d ∧
          d.traj = (sim_init sp angle).traj := by
        unfold sim_step
        rw [if_pos hcond]
        dsimp only
        rw [if_pos (show (sim_init sp angle).y + (sim_init sp angle).vy * sim_dt ≥
          ((area.2.1 + area.2.2.2 : ℤ) : ℝ) from hc2)]
        exact ⟨_, rfl, rfl⟩
      rw [sim_loop_succ_inl hd 1000, hdtraj,
        if_neg (by norm_num [sim_init] : ¬ (sim_init sp angle).traj.length > 1)]
      simp only [true_iff]
      exact Or.inr hc2
    · have hsplit : (∃ d, sim_step area.1 area.2.1 (area.1 + area.2.2.1)
          (area.2.1 + area.2.2.2) target (sim_init sp angle) = Sum.inl d ∧
            ∃ q, d.traj = (sim_init sp angle).traj ++ [q]) ∨
          (∃ st1, sim_step area.1 area.2.1 (area.1 + area.2.2.1)
            (area.2.1 + area.2.2.2) target (sim_init sp angle) = Sum.inr st1 ∧
            ∃ q, st1.traj = (sim_init sp angle).traj ++ [q]) := by
        unfold sim_step
        rw [if_pos hcond]
        dsimp only
        rw [if_neg (show ¬ ((sim_init sp angle).y + (sim_init sp angle).vy * sim_dt ≥
          ((area.2.1 + area.2.2.2 : ℤ) : ℝ)) from hc2)]
        split_ifs <;>
          first
          | exact Or.inl ⟨_, rfl, _, rfl⟩
          | exact Or.inr ⟨_, rfl, _, rfl⟩
      have hlen2 : (sim_loop area.1 area.2.1 (area.1 + area.2.2.1)
          (area.2.1 + area.2.2.2) target (1000 + 1) (sim_init sp angle)).traj.length
            > 1 := by
        rcases hsplit with ⟨d, hd, q, hq⟩ | ⟨st1, hst1, q, hq⟩
        · rw [sim_loop_succ_inl hd 1000, hq]
          norm_num [sim_init]
        · rw [sim_loop_succ_inr hst1 1000]
          have hmono := sim_loop_traj_length_le area.1 area.2.1 (area.1 + area.2.2.1)
            (area.2.1 + area.2.2.2) target 1000 st1
          have h2 : st1.traj.length = 2 := by
            rw [hq]
            norm_num [sim_init]
          omega
      rw [if_pos hlen2]
      constructor
      · intro h
        cases h
      · rintro (h | h)
        · exact absurd hc1 h
        · exact absurd h hc2
  · have hd : sim_step area.1 area.2.1 (area.1 + area.2.2.1) (area.2.1 + area.2.2.2)
        target (sim_init sp angle) = Sum.inl (sim_init sp angle) := by
      unfold sim_step
      rw [if_neg]
      exact fun hcond => hc1 hcond.2
    rw [sim_loop_succ_inl hd 1000,
      if_neg (by norm_num [sim_init] : ¬ (sim_init sp angle).traj.length > 1)]
    simp only [true_iff]
    exact Or.inl hc1

/-! ### A fully evaluated run: angle pi/2 in a narrow play area -/

lemma run_init_pi2 : sim_init (0, -1) (Real.pi / 2) = ⟨0, -1, 500, 0, 0, [(0, -1)]⟩ := by
  unfold sim_init bullet_speed
  rw [Real.sin_pi_div_two, Real.cos_pi_div_two]
  norm_num [SimState.mk.injEq]

lemma run_pi2_s1 : sim_step (-1) (-10) 1 0 ⟨1000, 1000, 5, 1, (0, 0, 0)⟩
    ⟨0, -1, 500, 0, 0, [(0, -1)]⟩ =
    Sum.inr ⟨1, -1, -400, 0.15696, 1, [(0, -1), (1, -1)]⟩ := by
  unfold sim_step
  norm_num [gravity, sim_dt, bounce_damping, max_bounces, pytrunc, abs_sub_lt_iff,
    max_def, min_def, SimState.mk.injEq]

lemma run_pi2_s2 : sim_step (-1) (-10) 1 0 ⟨1000, 1000, 5, 1, (0, 0, 0)⟩
    ⟨1, -1, -400, 0.15696, 1, [(0, -1), (1, -1)]⟩ =
    Sum.inr ⟨-1, -0.99748864, 320, 0.31392, 2, [(0, -1), (1, -1), (-1, 0)]⟩ := by
  unfold sim_step
  norm_num [gravity, sim_dt, bounce_damping, max_bounces, pytrunc, abs_sub_lt_iff,
    max_def, min_def, SimState.mk.injEq]

lemma run_pi2_s3 : sim_step (-1) (-10) 1 0 ⟨1000, 1000, 5, 1, (0, 0, 0)⟩
    ⟨-1, -0.99748864, 320, 0.31392, 2, [(0, -1), (1, -1), (-1, 0)]⟩ =
    Sum.inr ⟨1, -0.99246592, -256, 0.47088, 3, [(0, -1), (1, -1), (-1, 0), (1, 0)]⟩ := by
  unfold sim_step
  norm_num [gravity, sim_dt, bounce_damping, max_bounces, pytrunc, abs_sub_lt_iff,
    max_def, min_def, SimState.mk.injEq]

lemma run_pi2_s4 : sim_step (-1) (-10) 1 0 ⟨1000, 1000, 5, 1, (0, 0, 0)⟩
    ⟨1, -0.99246592, -256, 0.47088, 3, [(0, -1), (1, -1), (-1, 0), (1, 0)]⟩ =
    Sum.inr ⟨-1, -0.98493184, 204.8, 0.62784, 4,
      [(0, -1), (1, -1), (-1, 0), (1, 0), (-1, 0)]⟩ := by
  unfold sim_step
  norm_num [gravity, sim_dt, bounce_damping, max_bounces, pytrunc, abs_sub_lt_iff,
    max_def, min_def, SimState.mk.injEq]

lemma run_pi2_s5 : sim_step (-1) (-10) 1 0 ⟨1000, 1000, 5, 1, (0, 0, 0)⟩
    ⟨-1, -0.98493184, 204.8, 0.62784, 4, [(0, -1), (1, -1), (-1, 0), (1, 0), (-1, 0)]⟩ =
    Sum.inl ⟨-1, -0.98493184, 204.8, 0.62784, 4,
      [(0, -1), (1, -1), (-1, 0), (1, 0), (-1, 0)]⟩ := by
  unfold sim_step
  rw [if_neg]
  rintro ⟨h4, -⟩
  norm_num [max_bounces] at h4

lemma run_pi2_final : sim_loop (-1) (-10) 1 0 ⟨1000, 1000, 5, 1, (0, 0, 0)⟩ 1001
    (sim_init (0, -1) (Real.pi / 2)) =
    ⟨-1, -0.98493184, 204.8, 0.62784, 4,
      [(0, -1), (1, -1), (-1, 0), (1, 0), (-1, 0)]⟩ := by
  rw [run_init_pi2, show (1001 : ℕ) = 1000 + 1 from rfl,
    sim_loop_succ_inr run_pi2_s1 1000, show (1000 : ℕ) = 999 + 1 from rfl,
    sim_loop_succ_inr run_pi2_s2 999, show (999 : ℕ) = 998 + 1 from rfl,
    sim_loop_succ_inr run_pi2_s3 998, show (998 : ℕ) = 997 + 1 from rfl,
    sim_loop_succ_inr run_pi2_s4 997, show (997 : ℕ) = 996 + 1 from rfl,
    sim_loop_succ_inl run_pi2_s5 996]

lemma sqrt_far_ne {d : ℝ} (h : 25 < d) : ¬ (Real.sqrt d ≤ 5) := by
  intro hle
  have h5 : (5 : ℝ) < Real.sqrt d := by
    refine (Real.lt_sqrt (by norm_num)).mpr ?_
    norm_num
    exact h
  linarith

/-- Claim C3 (counterexample): at angle pi/2 in the play area (-1,-10,2,10)
the run exceeds the bounce budget (4 bounces > 3) without ever passing
within the target's radius, yet the simulator returns the partial
trajectory as a normal result instead of Infeasible. -/
theorem C3_infeasible_counterexample :
    (sim_loop (-1) (-10) 1 0 ⟨1000, 1000, 5, 1, (0, 0, 0)⟩ 1001
        (sim_init (0, -1) (Real.pi / 2))).bounces > max_bounces ∧
    _trajectory_hits_target [(0, -1), (1, -1), (-1, 0), (1, 0), (-1, 0)]
        ⟨1000, 1000, 5, 1, (0, 0, 0)⟩ = false ∧
    _simulate_trajectory (0, -1) (Real.pi / 2) (-1, -10, 2, 10)
        ⟨1000, 1000, 5, 1, (0, 0, 0)⟩ =
      some [(0, -1), (1, -1), (-1, 0), (1, 0), (-1, 0)] := by
  refine ⟨?_, ?_, ?_⟩
  · rw [run_pi2_final]
    norm_num [max_bounces]
  · unfold _trajectory_hits_target
    rw [List.any_eq_false]
    intro p hp
    simp only [decide_eq_true_eq]
    fin_cases hp
    all_goals push_cast
    all_goals
      first
      | (apply sqrt_far_ne; norm_num)
  · unfold _simulate_trajectory simulate_trajectory_fuel
    dsimp only
    rw [show ((-1 : ℤ) + 2) = 1 from rfl, show ((-10 : ℤ) + 10) = 0 from rfl,
      run_pi2_final]
    norm_num

/-- Claim C4 (counterexample): with the origin (0,-1) inside the play area
(-1,-10,2,10) - walls -1 and 1, floor at y_max = 0 - and strictly above the
floor, the returned trajectory contains the point (-1, 0) whose
y-coordinate equals the floor coordinate: Python int() truncation of the
simulated y = -0.997... rounds up to 0, so the claimed bound y < y_max
fails for play areas at negative vertical coordinates. -/
theorem C4_trajectory_bounds_counterexample :
    ((-1 : ℤ) ≤ 0 ∧ (0 : ℤ) ≤ -1 + 2 ∧ (-10 : ℤ) ≤ -1 ∧ (-1 : ℤ) < -10 + 10) ∧
    _simulate_trajectory (0, -1) (Real.pi / 2) (-1, -10, 2, 10)
        ⟨1000, 1000, 5, 1, (0, 0, 0)⟩ =
      some [(0, -1), (1, -1), (-1, 0), (1, 0), (-1, 0)] ∧
    ((-1 : ℤ), (0 : ℤ)) ∈ [((0 : ℤ), (-1 : ℤ)), (1, -1), (-1, 0), (1, 0), (-1, 0)] ∧
    ¬ ((0 : ℤ) < -10 + 10) := by
  refine ⟨by norm_num, ?_, by norm_num, by norm_num⟩
  unfold _simulate_trajectory simulate_trajectory_fuel
  dsimp only
  rw [show ((-1 : ℤ) + 2) = 1 from rfl, show ((-10 : ℤ) + 10) = 0 from rfl,
    run_pi2_final]
  norm_num

/-! ### Trajectory bounds invariant -/

lemma sim_step_points_good {x_min y_min x_max y_max : ℤ} {target : Bubble}
    {st : SimState} {res : SimState ⊕ SimState}
    (hxm : x_min ≤ x_max) (hym : 1 ≤ y_max)
    (h : sim_step x_min y_min x_max y_max target st = res) :
    ∀ p ∈ (Sum.elim id id res).traj,
      p ∈ st.traj ∨ (x_min ≤ p.1 ∧ p.1 ≤ x_max ∧ p.2 < y_max) := by
  by_cases hcond : st.bounces ≤ max_bounces ∧ st.y > (y_min : ℝ)
  case neg =>
    unfold sim_step at h
    rw [if_neg hcond] at h
    subst h
    intro p hp
    exact Or.inl hp
  case pos =>
    unfold sim_step at h
    rw [if_pos hcond] at h
    dsimp only at h
    by_cases hwall : st.x + st.vx * sim_dt ≤ (x_min : ℝ) ∨
        st.x + st.vx * sim_dt ≥ (x_max : ℝ)
    case pos =>
      rw [if_pos hwall, if_pos hwall, if_pos hwall] at h
      have hx2 : (x_min : ℝ) ≤ max (x_min : ℝ) (min (x_max : ℝ)
            (st.x + st.vx * sim_dt)) ∧
          max (x_min : ℝ) (min (x_max : ℝ) (st.x + st.vx * sim_dt)) ≤ (x_max : ℝ) :=
        ⟨le_max_left _ _, max_le (by exact_mod_cast hxm) (min_le_left _ _)⟩
      by_cases hfloor : st.y + st.vy * sim_dt ≥ (y_max : ℝ)
      · rw [if_pos hfloor] at h
        subst h
        intro p hp
        exact Or.inl hp
      · rw [if_neg hfloor] at h
        have hgood : x_min ≤ pytrunc (max (x_min : ℝ) (min (x_max : ℝ)
              (st.x + st.vx * sim_dt))) ∧
            pytrunc (max (x_min : ℝ) (min (x_max : ℝ) (st.x + st.vx * sim_dt))) ≤
              x_max ∧
            pytrunc (st.y + st.vy * sim_dt) < y_max :=
          ⟨le_pytrunc hx2.1, pytrunc_le hx2.2, pytrunc_lt (lt_of_not_ge hfloor) hym⟩
        split_ifs at h
        all_goals subst h
        all_goals intro p hp
        all_goals rcases List.mem_append.mp hp with hp | hp
        all_goals
          first
          | exact Or.inl hp
          | (rw [List.mem_singleton.mp hp]; exact Or.inr hgood)
    case neg =>
      rw [if_neg hwall, if_neg hwall, if_neg hwall] at h
      push_neg at hwall
      have hx2 : (x_min : ℝ) ≤ st.x + st.vx * sim_dt ∧
          st.x + st.vx * sim_dt ≤ (x_max : ℝ) := ⟨hwall.1.le, hwall.2.le⟩
      by_cases hfloor : st.y + st.vy * sim_dt ≥ (y_max : ℝ)
      · rw [if_pos hfloor] at h
        subst h
        intro p hp
        exact Or.inl hp
      · rw [if_neg hfloor] at h
        have hgood : x_min ≤ pytrunc (st.x + st.vx * sim_dt) ∧
            pytrunc (st.x + st.vx * sim_dt) ≤ x_max ∧
            pytrunc (st.y + st.vy * sim_dt) < y_max :=
          ⟨le_pytrunc hx2.1, pytrunc_le hx2.2, pytrunc_lt (lt_of_not_ge hfloor) hym⟩
        split_ifs at h
        all_goals subst h
        all_goals intro p hp
        all_goals rcases List.mem_append.mp hp with hp | hp
        all_goals
          first
          | exact Or.inl hp
          | (rw [List.mem_singleton.mp hp]; exact Or.inr hgood)

lemma sim_loop_points_good {x_min y_min x_max y_max : ℤ} {target : Bubble}
    (hxm : x_min ≤ x_max) (hym : 1 ≤ y_max) :
    ∀ (fuel : ℕ) (st : SimState),
      (∀ p ∈ st.traj, x_min ≤ p.1 ∧ p.1 ≤ x_max ∧ p.2 < y_max) →
      ∀ p ∈ (sim_loop x_min y_min x_max y_max target fuel st).traj,
        x_min ≤ p.1 ∧ p.1 ≤ x_max ∧ p.2 < y_max := by
  intro fuel
  induction fuel with
  | zero => exact fun st h => h
  | succ fuel ih =>
    intro st hst
    rw [sim_loop]
    cases h : sim_step x_min y_min x_max y_max target st with
    | inl d =>
      intro p hp
      rcases sim_step_points_good hxm hym h p hp with hmem | hgood
      · exact hst p hmem
      · exact hgood
    | inr st1 =>
      apply ih st1
      intro p hp
      rcases sim_step_points_good hxm hym h p hp with hmem | hgood
      · exact hst p hmem
      · exact hgood

/-- Claim C4 (amended): assuming the play area sits at nonnegative vertical
coordinates (0 ≤ y_min) and the launch origin lies inside the play area
strictly above the floor, every point of every trajectory returned by the
simulator has its x-coordinate within [x_min, x_max] and its y-coordinate
strictly above the floor (y < y_max).  (Without the nonnegativity
assumption, truncation toward zero of a negative simulated y can land a
point exactly on the floor - see the counterexample.) -/
theorem C4_trajectory_in_bounds_amended :
    ∀ (start_pos : ℤ × ℤ) (angle : ℝ) (game_area : ℤ × ℤ × ℤ × ℤ)
      (target : Bubble) (traj : List (ℤ × ℤ)),
      game_area.1 ≤ start_pos.1 → start_pos.1 ≤ game_area.1 + game_area.2.2.1 →
      game_area.2.1 ≤ start_pos.2 → start_pos.2 < game_area.2.1 + game_area.2.2.2 →
      0 ≤ game_area.2.1 →
      _simulate_trajectory start_pos angle game_area target = some traj →
      ∀ p ∈ traj, game_area.1 ≤ p.1 ∧ p.1 ≤ game_area.1 + game_area.2.2.1 ∧
        p.2 < game_area.2.1 + game_area.2.2.2 := by
  intro sp angle area target traj h1 h2 h3 h4 h5 hres
  have hxm : area.1 ≤ area.1 + area.2.2.1 := by omega
  have hym : (1 : ℤ) ≤ area.2.1 + area.2.2.2 := by omega
  have hinit : ∀ p ∈ (sim_init sp angle).traj,
      area.1 ≤ p.1 ∧ p.1 ≤ area.1 + area.2.2.1 ∧
        p.2 < area.2.1 + area.2.2.2 := by
    intro p hp
    have hp1 : p = (sp.1, sp.2) := by simpa [sim_init] using hp
    rw [hp1]
    exact ⟨h1, h2, h4⟩
  unfold _simulate_trajectory simulate_trajectory_fuel at hres
  dsimp only at hres
  by_cases hl : (sim_loop area.1 area.2.1 (area.1 + area.2.2.1)
      (area.2.1 + area.2.2.2) target 1001 (sim_init sp angle)).traj.length > 1
  · rw [if_pos hl] at hres
    have hall := @sim_loop_points_good area.1 area.2.1 (area.1 + area.2.2.1)
      (area.2.1 + area.2.2.2) target hxm hym 1001 (sim_init sp angle) hinit
    intro p hp
    apply hall
    rw [Option.some_injective _ hres]
    exact hp
  · rw [if_neg hl] at hres
    cases hres

/-! ### A fully evaluated run: angle 0 in a normal play area -/

lemma run_init_zero : sim_init (5, 5) 0 = ⟨5, 5, 0, -500, 0, [(5, 5)]⟩ := by
  unfold sim_init bullet_speed
  rw [Real.sin_zero, Real.cos_zero]
  norm_num [SimState.mk.injEq]

lemma run_zero_s1 : sim_step 0 0 10 10 ⟨50, 50, 5, 1, (0, 0, 0)⟩
    ⟨5, 5, 0, -500, 0, [(5, 5)]⟩ =
    Sum.inr ⟨5, -3, 0, -499.84304, 0, [(5, 5), (5, -3)]⟩ := by
  unfold sim_step
  norm_num [gravity, sim_dt, bounce_damping, max_bounces, pytrunc, abs_sub_lt_iff,
    max_def, min_def, SimState.mk.injEq]

lemma run_zero_s2 : sim_step 0 0 10 10 ⟨50, 50, 5, 1, (0, 0, 0)⟩
    ⟨5, -3, 0, -499.84304, 0, [(5, 5), (5, -3)]⟩ =
    Sum.inl ⟨5, -3, 0, -499.84304, 0, [(5, 5), (5, -3)]⟩ := by
  unfold sim_step
  rw [if_neg]
  rintro ⟨-, hy⟩
  norm_num at hy

lemma run_zero_final :
    _simulate_trajectory (5, 5) 0 (0, 0, 10, 10) ⟨50, 50, 5, 1, (0, 0, 0)⟩ =
      some [(5, 5), (5, -3)] := by
  unfold _simulate_trajectory simulate_trajectory_fuel
  dsimp only
  rw [show ((0 : ℤ) + 10) = 10 from rfl, run_init_zero,
    show (1001 : ℕ) = 1000 + 1 from rfl, sim_loop_succ_inr run_zero_s1 1000,
    show (1000 : ℕ) = 999 + 1 from rfl, sim_loop_succ_inl run_zero_s2 999]
  norm_num

/-- Witness for the amended claim C4: the concrete run from (5,5) at angle 0
in the play area (0,0,10,10) returns the trajectory [(5,5),(5,-3)], and its
point (5,-3) satisfies the claimed bounds. -/
theorem C4_trajectory_in_bounds_amended_witness :
    (0 : ℤ) ≤ 5 ∧ (5 : ℤ) ≤ 0 + 10 ∧ (-3 : ℤ) < 0 + 10 :=
  C4_trajectory_in_bounds_amended (5, 5) 0 (0, 0, 10, 10) ⟨50, 50, 5, 1, (0, 0, 0)⟩
    [(5, 5), (5, -3)] (by norm_num) (by norm_num) (by norm_num) (by norm_num)
    (by norm_num) run_zero_final (5, -3) (by norm_num)

end Lingongrova
